import Mathlib

/-!
# Verification of the geth-to-MapR-DB loading notebook

A shallow embedding of the notebook `1_geth_to_maprdb.ipynb`, which
authenticates against a MapR-DB REST gateway, creates a table, pulls
Ethereum blocks through a local geth client, and posts each block's
transactions one by one to the gateway.

The embedding models:
* JSON-like documents (`Val`, `Doc`) with Python-dict field access
  (`getField`) and assignment (`setField`);
* the extractor `getAllTransactions` (cell 14 of the notebook);
* the loader / range driver `getTransactionsAndInsertToDB` (cell 17);
* the authentication cell (`runAuth`), header construction (`mkHeaders`,
  cell 7), and table creation (`putTable`, cell 10);
* the whole session (`runScript`).

External effects (the geth RPC client, the gateway) are parameters:
a `Web3` record for the data source, a `post` oracle telling whether a
given `requests.post` call raises (and with which exception message),
and a `Sink` state for the table-create endpoint.  The observable
behaviour of a run is a trace of `Event`s: extractor invocations,
attempted insert calls, printed error reports, and the table PUT.
-/

/-- JSON-like values, as produced by `web3` for a transaction record:
strings, numbers, booleans, null, and nested arrays/objects. -/
inductive Val where
  | vnull : Val
  | vstr : String → Val
  | vint : Int → Val
  | vbool : Bool → Val
  | varr : List Val → Val
  | vobj : List (String × Val) → Val

/-- A Python dict with string keys, in insertion order (e.g. a
transaction record, or the JSON body of the token response). -/
abbrev Doc := List (String × Val)

/-- Python dict lookup `d[k]`: the value at the first matching key
(`none` models a `KeyError`). -/
def getField (d : Doc) (k : String) : Option Val :=
  match d with
  | [] => none
  | (k₀, v) :: rest => if k₀ = k then some v else getField rest k

/-- Python dict assignment `d[k] = v`: replaces the value at an existing
key in place, otherwise appends the new entry at the end. -/
def setField (d : Doc) (k : String) (v : Val) : Doc :=
  match d with
  | [] => [(k, v)]
  | (k₀, v₀) :: rest => if k₀ = k then (k, v) :: rest else (k₀, v₀) :: setField rest k v

/-- Python `dict(transaction)`: walks the entries in order and rebuilds
the mapping (the notebook uses it to turn web3's AttributeDict into a
plain dict before appending it to the result list). -/
def dictCopy (d : Doc) : Doc :=
  d.foldl (fun acc kv => acc ++ [kv]) []

/-- A block as returned by `web3.eth.getBlock(block, full_transactions=True)`:
only the `transactions` field is consumed by the notebook. -/
structure EthBlock where
  transactions : List Doc

/-- The geth RPC client: `getBlock` may raise (network error), modelled
as `Except`; `latestNumber` is `web3.eth.getBlock('latest').number`. -/
structure Web3 where
  getBlock : Nat → Except String EthBlock
  latestNumber : Nat

/-- Cell 14: `getAllTransactions(block)` — builds an empty list, then for
each transaction of the (fully materialized) block appends
`dict(transaction)`, and returns the list.  An exception from
`web3.eth.getBlock` propagates (there is no handler in this function). -/
def getAllTransactions (w : Web3) (block : Nat) : Except String (List Doc) :=
  match w.getBlock block with
  | .error e => .error e
  | .ok b => .ok (b.transactions.foldl (fun acc t => acc ++ [dictCopy t]) [])

/-- HTTP headers, as a Python dict of strings in insertion order. -/
abbrev Headers := List (String × String)

/-- One `requests.post` insert call: target URL, the headers passed, and
the JSON document sent as the body. -/
structure InsertCall where
  url : String
  headers : Headers
  body : Doc

/-- An observable step of the session: an extractor invocation for a
block height, an attempted insert call, a printed error report
(`print(e)` in the loader's `except` clause), or the table-create PUT
with its response status. -/
inductive Event where
  | extract : Nat → Event
  | insert : InsertCall → Event
  | report : String → Event
  | tablePut : String → Headers → Nat → Event

/-- The per-record key assignment of cell 17,
`transaction['_id'] = transaction['hash']`: reads the `hash` field
(`none` models the `KeyError` when it is absent) and stores it under
`_id`. -/
def prepareTx (t : Doc) : Option Doc :=
  (getField t "hash").map (fun h => setField t "_id" h)

/-- Assemble the `requests.post` call for a prepared document. -/
def mkCall (url : String) (hdrs : Headers) (d : Doc) : InsertCall :=
  ⟨url, hdrs, d⟩

/-- The inner loop of cell 17, together with its enclosing
`try`/`except`: for each transaction, assign `_id` from `hash` and call
`requests.post`.  The `post` oracle returns `some e` when the call
raises exception `e`.  The single `try` wraps the WHOLE loop, so the
first exception (a `KeyError` from the assignment or a raising post)
ends the loop; the handler prints the exception once (`Event.report`)
and falls through. -/
def insertLoop (post : InsertCall → Option String) (url : String) (hdrs : Headers) :
    List Doc → List Event
  | [] => []
  | t :: rest =>
    match prepareTx t with
    | none => [Event.report "KeyError: hash"]
    | some d =>
      match post (mkCall url hdrs d) with
      | some e => [Event.insert (mkCall url hdrs d), Event.report e]
      | none => Event.insert (mkCall url hdrs d) :: insertLoop post url hdrs rest

/-- The constant part of `rest_put_txs_url` in cell 17; the table name is
appended to it. -/
def txsUrlBase : String :=
  "https://172.16.9.238:8243/api/v2/table/%2Fuser%2Ftestuser%2Feth%2F"

/-- The outer loop of cell 17 over block heights, accumulating the event
trace.  For each height: call `getAllTransactions` (OUTSIDE any
`try`, so an extraction error aborts the whole run, carrying the trace
produced so far), then run the guarded insert loop. -/
def runBlocks (w : Web3) (post : InsertCall → Option String) (url : String)
    (hdrs : Headers) : List Nat → List Event → Except (String × List Event) (List Event)
  | [], evs => .ok evs
  | b :: rest, evs =>
    match getAllTransactions w b with
    | .error e => .error (e, evs ++ [Event.extract b])
    | .ok txs => runBlocks w post url hdrs rest (evs ++ Event.extract b :: insertLoop post url hdrs txs)

/-- Cell 17: `getTransactionsAndInsertToDB(blockstart, blockend, txstable)` —
iterates `range(blockstart, blockend)` and, per block, extracts then
inserts.  `List.range' blockstart (blockend - blockstart)` is exactly
Python's `range(blockstart, blockend)` on naturals (empty when
`blockend ≤ blockstart`). -/
def getTransactionsAndInsertToDB (w : Web3) (post : InsertCall → Option String)
    (hdrs : Headers) (blockstart blockend : Nat) (txstable : String) :
    Except (String × List Event) (List Event) :=
  runBlocks w post (txsUrlBase ++ txstable) hdrs
    (List.range' blockstart (blockend - blockstart)) []

/-- Outcome of the `requests.post` to the auth endpoint in cell 2:
a parsed JSON response, a `requests.exceptions.ConnectionError`, or any
other exception. -/
inductive AuthOutcome where
  | success : Doc → AuthOutcome
  | connError : String → AuthOutcome
  | otherError : String → AuthOutcome

/-- Cell 2: `bearerToken = None; try: bearerToken = requests.post(...).json()
except requests.exceptions.ConnectionError: pass`.  A connection error
is swallowed (`pass`) and leaves `bearerToken` at `None`; any other
exception propagates. -/
def runAuth : AuthOutcome → Except String (Option Doc)
  | .success j => .ok (some j)
  | .connError _ => .ok none
  | .otherError e => .error e

/-- Cell 7: `headers = {'content-type': 'application/json',
'Authorization': 'Bearer ' + bearerToken['token']}`.  Subscripting
`None` raises a `TypeError`; a missing `token` key raises `KeyError`;
concatenating a non-string raises `TypeError`. -/
def mkHeaders : Option Doc → Except String Headers
  | none => .error "TypeError: NoneType object is not subscriptable"
  | some j =>
    match getField j "token" with
    | none => .error "KeyError: token"
    | some (Val.vstr t) =>
      .ok [("content-type", "application/json"), ("Authorization", "Bearer " ++ t)]
    | some _ => .error "TypeError: can only concatenate str to str"

/-- State of the document store: the set of existing table paths. -/
structure Sink where
  tables : List String

/-- Modelled from the spec: the gateway's table-create endpoint is
external to the repository (only its caller, cell 10, is in the
source).  Per the spec's external-interface section and the source's
own comment, PUT answers 201 when the table is created and 409 when it
already exists. -/
def putTable (s : Sink) (path : String) : Nat × Sink :=
  if path ∈ s.tables then (409, s) else (201, { tables := s.tables ++ [path] })

/-- The source's classification of the table-create statuses (comment in
cell 10): 201 means created, 409 means the table already exists "which
is good"; anything else (e.g. 401, expired token) is not a success. -/
def statusMeansSuccess (code : Nat) : Bool :=
  code == 201 || code == 409

/-- The table path PUT in cell 10. -/
def transaction_put_url : String :=
  "https://172.16.9.42:8243/api/v2/table/%2Fuser%2Ftestuser%2Feth%2Fall_transactions_table"

/-- The whole notebook session, in cell order: authenticate (cell 2),
build the headers (cell 7), create the table (cell 10), read the
latest block number and run the loader over the last 100 blocks
(cell 19).  An uncaught exception aborts the session, carrying the
trace of gateway requests already made. -/
def runScript (auth : AuthOutcome) (s : Sink) (w : Web3)
    (post : InsertCall → Option String) :
    Except (String × List Event) (List Event × Sink) :=
  match runAuth auth with
  | .error e => .error (e, [])
  | .ok bearerToken =>
    match mkHeaders bearerToken with
    | .error e => .error (e, [])
    | .ok headers =>
      let created := putTable s transaction_put_url
      let evs₀ := [Event.tablePut transaction_put_url headers created.1]
      let currentblock := w.latestNumber
      match getTransactionsAndInsertToDB w post headers (currentblock - 100) currentblock
          "all_transactions_table" with
      | .error (e, evs) => .error (e, evs₀ ++ evs)
      | .ok evs => .ok (evs₀ ++ evs, created.2)

/-- The extractor invocations recorded in a trace, in order. -/
def extractsOf : List Event → List Nat
  | [] => []
  | Event.extract b :: rest => b :: extractsOf rest
  | _ :: rest => extractsOf rest

/-- The attempted insert calls recorded in a trace, in order. -/
def insertsOf : List Event → List InsertCall
  | [] => []
  | Event.insert c :: rest => c :: insertsOf rest
  | _ :: rest => insertsOf rest

/-- The printed error reports recorded in a trace, in order. -/
def reportsOf : List Event → List String
  | [] => []
  | Event.report e :: rest => e :: reportsOf rest
  | _ :: rest => reportsOf rest

/-- The headers an event carried to the gateway, when it is a gateway
request (an insert or the table PUT). -/
def eventHeaders : Event → Option Headers
  | Event.insert c => some c.headers
  | Event.tablePut _ h _ => some h
  | _ => none

/-- The event trace of a driver run, whether it finished or aborted. -/
def driverTrace : Except (String × List Event) (List Event) → List Event
  | .error (_, evs) => evs
  | .ok evs => evs

/-- The event trace of a whole session, whether it finished or aborted. -/
def scriptTrace : Except (String × List Event) (List Event × Sink) → List Event
  | .error (_, evs) => evs
  | .ok (evs, _) => evs

/-- The uncaught exception a driver run ended with, if any. -/
def errOf : Except (String × List Event) (List Event) → Option String
  | .error (e, _) => some e
  | .ok _ => none

/-! ### Concrete sample data, used to exercise the theorems -/

/-- A sample transaction record with hash `h1`. -/
def tx1 : Doc := [("hash", Val.vstr "h1"), ("value", Val.vint 1)]

/-- A sample transaction record with hash `h2`. -/
def tx2 : Doc := [("hash", Val.vstr "h2"), ("value", Val.vint 2)]

/-- A sample transaction record with hash `h3`. -/
def tx3 : Doc := [("hash", Val.vstr "h3"), ("value", Val.vint 3)]

/-- A sample transaction record with hash `h4`. -/
def tx4 : Doc := [("hash", Val.vstr "h4"), ("value", Val.vint 4)]

/-- A sample transaction record with hash `h5`. -/
def tx5 : Doc := [("hash", Val.vstr "h5"), ("value", Val.vint 5)]

/-- The insert URL for the demo table. -/
def demoUrl : String := txsUrlBase ++ "all_transactions_table"

/-- Sample request headers. -/
def demoHdrs : Headers :=
  [("content-type", "application/json"), ("Authorization", "Bearer tok")]

/-- A post oracle for which exactly the insert of the record keyed `h3`
raises a connection error. -/
def demoPost : InsertCall → Option String :=
  fun c =>
    match getField c.body "_id" with
    | some (Val.vstr s) => if s = "h3" then some "ConnectionError" else none
    | _ => none

/-- A ledger whose every block is empty. -/
def emptyLedger : Web3 := ⟨fun _ => .ok ⟨[]⟩, 0⟩

/-- A ledger whose blocks 100, 101, 102 contain 2, 0 and 3 transactions. -/
def demoLedger : Web3 :=
  ⟨fun b =>
    if b = 100 then .ok ⟨[tx1, tx2]⟩
    else if b = 101 then .ok ⟨[]⟩
    else if b = 102 then .ok ⟨[tx3, tx4, tx5]⟩
    else .error "ConnectionError", 0⟩

/-- A ledger for which fetching block 4 raises; all other blocks are
empty. -/
def faultyLedger : Web3 :=
  ⟨fun b => if b = 4 then .error "timeout" else .ok ⟨[]⟩, 0⟩

/-! ## Basic lemmas about documents and extraction -/

theorem getField_setField_same (d : Doc) (k : String) (v : Val) :
    getField (setField d k v) k = some v := by
  induction d with
  | nil => simp [setField, getField]
  | cons kv rest ih =>
    obtain ⟨k₀, v₀⟩ := kv
    by_cases h : k₀ = k
    · simp [setField, h, getField]
    · simp [setField, h, getField, ih]

theorem foldl_append_accum {α β : Type} (f : α → β) :
    ∀ (l : List α) (acc : List β),
      l.foldl (fun a t => a ++ [f t]) acc = acc ++ l.map f
  | [], acc => by simp
  | t :: rest, acc => by
    simp [List.foldl_cons, foldl_append_accum f rest (acc ++ [f t])]

theorem dictCopy_eq (d : Doc) : dictCopy d = d := by
  simpa using foldl_append_accum (fun kv => kv) d []

theorem map_dictCopy (l : List Doc) : l.map dictCopy = l := by
  induction l with
  | nil => rfl
  | cons t rest ih => simp [dictCopy_eq, ih]

theorem getAllTransactions_ok (w : Web3) (b : Nat) (blk : EthBlock)
    (hb : w.getBlock b = .ok blk) :
    getAllTransactions w b = .ok blk.transactions := by
  unfold getAllTransactions
  rw [hb]
  show Except.ok (blk.transactions.foldl (fun acc t => acc ++ [dictCopy t]) []) = _
  rw [foldl_append_accum dictCopy blk.transactions [], List.nil_append,
    map_dictCopy]

/-! ## Lemmas about the guarded insert loop -/

theorem insertLoop_all_ok (post : InsertCall → Option String) (url : String)
    (hdrs : Headers) :
    ∀ (txs : List Doc), (∀ t ∈ txs, (prepareTx t).isSome = true) →
      (∀ c, post c = none) →
      insertLoop post url hdrs txs
        = txs.map (fun t => Event.insert (mkCall url hdrs ((prepareTx t).getD t)))
  | [], _, _ => rfl
  | t :: rest, hh, hp => by
    obtain ⟨d, hd⟩ := Option.isSome_iff_exists.mp (hh t (List.mem_cons_self t rest))
    rw [List.map_cons, hd]
    simp only [insertLoop, hd, hp, Option.getD_some]
    rw [insertLoop_all_ok post url hdrs rest
      (fun x hx => hh x (List.mem_cons_of_mem t hx)) hp]

theorem insertLoop_fail (post : InsertCall → Option String) (url : String)
    (hdrs : Headers) :
    ∀ (pre : List Doc) (t : Doc) (suf : List Doc) (dt : Doc) (e : String),
      (∀ d ∈ pre, (prepareTx d).isSome = true
        ∧ post (mkCall url hdrs ((prepareTx d).getD d)) = none) →
      prepareTx t = some dt →
      post (mkCall url hdrs dt) = some e →
      insertLoop post url hdrs (pre ++ t :: suf)
        = pre.map (fun d => Event.insert (mkCall url hdrs ((prepareTx d).getD d)))
          ++ [Event.insert (mkCall url hdrs dt), Event.report e]
  | [], t, suf, dt, e, _, hdt, he => by
    simp only [List.nil_append, List.map_nil, insertLoop, hdt, he]
  | d₀ :: pre, t, suf, dt, e, hpre, hdt, he => by
    obtain ⟨hs, hok⟩ := hpre d₀ (List.mem_cons_self d₀ pre)
    obtain ⟨p, hp⟩ := Option.isSome_iff_exists.mp hs
    rw [List.cons_append, List.map_cons]
    simp only [insertLoop, hp]
    rw [hp] at hok
    simp only [Option.getD_some] at hok ⊢
    rw [hok, insertLoop_fail post url hdrs pre t suf dt e
      (fun x hx => hpre x (List.mem_cons_of_mem d₀ hx)) hdt he, List.cons_append]

/-! ## Lemmas about the block-range loop -/

theorem runBlocks_append_ok (w : Web3) (post : InsertCall → Option String)
    (url : String) (hdrs : Headers) (txsOf : Nat → List Doc) :
    ∀ (bs₁ bs₂ : List Nat) (evs : List Event),
      (∀ b ∈ bs₁, getAllTransactions w b = .ok (txsOf b)) →
      runBlocks w post url hdrs (bs₁ ++ bs₂) evs
        = runBlocks w post url hdrs bs₂
            (evs ++ bs₁.flatMap
              (fun b => Event.extract b :: insertLoop post url hdrs (txsOf b)))
  | [], bs₂, evs, _ => by simp
  | b :: bs₁, bs₂, evs, h => by
    rw [List.cons_append]
    simp only [runBlocks, h b (List.mem_cons_self b bs₁)]
    rw [runBlocks_append_ok w post url hdrs txsOf bs₁ bs₂ _
      (fun x hx => h x (List.mem_cons_of_mem b hx))]
    simp [List.flatMap_cons]

theorem runBlocks_ok (w : Web3) (post : InsertCall → Option String)
    (url : String) (hdrs : Headers) (txsOf : Nat → List Doc)
    (bs : List Nat) (evs : List Event)
    (h : ∀ b ∈ bs, getAllTransactions w b = .ok (txsOf b)) :
    runBlocks w post url hdrs bs evs
      = .ok (evs ++ bs.flatMap
          (fun b => Event.extract b :: insertLoop post url hdrs (txsOf b))) := by
  have := runBlocks_append_ok w post url hdrs txsOf bs [] evs h
  rw [List.append_nil] at this
  rw [this]
  rfl

/-! ## Lemmas about trace projections -/

theorem extractsOf_append (a b : List Event) :
    extractsOf (a ++ b) = extractsOf a ++ extractsOf b := by
  induction a with
  | nil => rfl
  | cons ev rest ih => cases ev <;> simp [extractsOf, ih]

theorem insertsOf_append (a b : List Event) :
    insertsOf (a ++ b) = insertsOf a ++ insertsOf b := by
  induction a with
  | nil => rfl
  | cons ev rest ih => cases ev <;> simp [insertsOf, ih]

theorem reportsOf_append (a b : List Event) :
    reportsOf (a ++ b) = reportsOf a ++ reportsOf b := by
  induction a with
  | nil => rfl
  | cons ev rest ih => cases ev <;> simp [reportsOf, ih]

theorem extractsOf_insertLoop (post : InsertCall → Option String) (url : String)
    (hdrs : Headers) :
    ∀ txs : List Doc, extractsOf (insertLoop post url hdrs txs) = []
  | [] => rfl
  | t :: rest => by
    cases hp : prepareTx t with
    | none => simp [insertLoop, hp, extractsOf]
    | some d =>
      cases hq : post (mkCall url hdrs d) with
      | some e => simp [insertLoop, hp, hq, extractsOf]
      | none =>
        simp [insertLoop, hp, hq, extractsOf,
          extractsOf_insertLoop post url hdrs rest]

theorem insertsOf_map_insert (g : Doc → InsertCall) :
    ∀ txs : List Doc,
      insertsOf (txs.map (fun t => Event.insert (g t))) = txs.map g
  | [] => rfl
  | t :: rest => by simp [insertsOf, insertsOf_map_insert g rest]

theorem reportsOf_map_insert (g : Doc → InsertCall) :
    ∀ txs : List Doc,
      reportsOf (txs.map (fun t => Event.insert (g t))) = []
  | [] => rfl
  | t :: rest => by simp [reportsOf, reportsOf_map_insert g rest]

theorem extractsOf_flat (post : InsertCall → Option String) (url : String)
    (hdrs : Headers) (txsOf : Nat → List Doc) :
    ∀ bs : List Nat,
      extractsOf (bs.flatMap
        (fun b => Event.extract b :: insertLoop post url hdrs (txsOf b))) = bs
  | [] => rfl
  | b :: bs => by
    rw [List.flatMap_cons]
    simp [extractsOf_append, extractsOf, extractsOf_insertLoop,
      extractsOf_flat post url hdrs txsOf bs]

/-! ## Headers carried by gateway requests -/

theorem eventHeaders_insertLoop (post : InsertCall → Option String) (url : String)
    (hdrs : Headers) :
    ∀ txs : List Doc, ∀ ev ∈ insertLoop post url hdrs txs,
      ∀ hd, eventHeaders ev = some hd → hd = hdrs
  | [] => by intro ev hev; exact absurd hev (List.not_mem_nil ev)
  | t :: rest => by
    intro ev hev hd hhd
    cases hp : prepareTx t with
    | none =>
      simp only [insertLoop, hp, List.mem_singleton] at hev
      subst hev
      simp [eventHeaders] at hhd
    | some d =>
      cases hq : post (mkCall url hdrs d) with
      | some e =>
        simp only [insertLoop, hp, hq, List.mem_cons, List.mem_singleton,
          List.not_mem_nil, or_false] at hev
        rcases hev with rfl | rfl
        · simp [eventHeaders, mkCall] at hhd
          exact hhd.symm
        · simp [eventHeaders] at hhd
      | none =>
        simp only [insertLoop, hp, hq, List.mem_cons] at hev
        rcases hev with rfl | hev
        · simp [eventHeaders, mkCall] at hhd
          exact hhd.symm
        · exact eventHeaders_insertLoop post url hdrs rest ev hev hd hhd

theorem eventHeaders_runBlocks (w : Web3) (post : InsertCall → Option String)
    (url : String) (hdrs : Headers) :
    ∀ (bs : List Nat) (evs : List Event),
      (∀ ev ∈ evs, ∀ hd, eventHeaders ev = some hd → hd = hdrs) →
      ∀ ev ∈ driverTrace (runBlocks w post url hdrs bs evs),
        ∀ hd, eventHeaders ev = some hd → hd = hdrs
  | [], evs, h => by
    intro ev hev
    exact h ev hev
  | b :: bs, evs, h => by
    intro ev hev hd hhd
    cases hg : getAllTransactions w b with
    | error e =>
      simp only [runBlocks, hg, driverTrace, List.mem_append,
        List.mem_singleton] at hev
      rcases hev with hev | rfl
      · exact h ev hev hd hhd
      · simp [eventHeaders] at hhd
    | ok txs =>
      simp only [runBlocks, hg] at hev
      refine eventHeaders_runBlocks w post url hdrs bs
        (evs ++ Event.extract b :: insertLoop post url hdrs txs) ?_ ev hev hd hhd
      intro ev' hev' hd' hhd'
      rcases List.mem_append.mp hev' with hev' | hev'
      · exact h ev' hev' hd' hhd'
      · rcases List.mem_cons.mp hev' with rfl | hev'
        · simp [eventHeaders] at hhd'
        · exact eventHeaders_insertLoop post url hdrs txs ev' hev' hd' hhd'

/-! ## Claims -/

/-- C2: Key derivation — for every transaction record processed by the
Loader, the document key (`_id`) assigned before the insert equals the
record's `hash` field, and two transactions with different hash values
are assigned different document keys. -/
theorem C2_key_derivation (t : Doc) (h : Val) (hh : getField t "hash" = some h) :
    prepareTx t = some (setField t "_id" h)
    ∧ getField (setField t "_id" h) "_id" = some h
    ∧ ∀ (t₂ : Doc) (h₂ : Val), getField t₂ "hash" = some h₂ → h ≠ h₂ →
        getField (setField t "_id" h) "_id" ≠ getField (setField t₂ "_id" h₂) "_id" := by
  refine ⟨?_, getField_setField_same t "_id" h, ?_⟩
  · simp [prepareTx, hh]
  · intro t₂ h₂ hh₂ hne
    rw [getField_setField_same, getField_setField_same]
    intro hcontra
    exact hne (Option.some.inj hcontra)

/-- Witness for C2 at the record `tx1`: its assigned key is its hash. -/
theorem C2_key_derivation_witness :
    getField (setField tx1 "_id" (Val.vstr "h1")) "_id" = some (Val.vstr "h1") :=
  (C2_key_derivation tx1 (Val.vstr "h1") rfl).2.1

/-- C4: Extraction completeness — for every block containing N
transactions, the extractor returns exactly N records, in the block's
order, each record containing all of the source transaction's fields
unmodified (nested structures preserved): the returned list is equal,
record for record, to the block's transaction list. -/
theorem C4_extraction_completeness (w : Web3) (b : Nat) (blk : EthBlock)
    (hb : w.getBlock b = .ok blk) :
    getAllTransactions w b = .ok blk.transactions :=
  getAllTransactions_ok w b blk hb

/-- Witness for C4 on a two-transaction block whose first record has a
nested object field. -/
theorem C4_extraction_completeness_witness :
    getAllTransactions
      ⟨fun _ => .ok ⟨[[("hash", Val.vstr "a"),
                       ("receipt", Val.vobj [("status", Val.vint 1)])],
                      [("hash", Val.vstr "b")]]⟩, 0⟩ 5
      = .ok [[("hash", Val.vstr "a"),
              ("receipt", Val.vobj [("status", Val.vint 1)])],
             [("hash", Val.vstr "b")]] :=
  C4_extraction_completeness _ 5 _ rfl

/-- C6: Authenticator on an unreachable network — a connection error
raised by the authentication request is caught and discarded (the
result is `Except.ok`, i.e. the cell finishes and execution proceeds),
and no usable token is produced: the token value stays `None`. -/
theorem C6_auth_connection_error_swallowed (e : String) :
    runAuth (AuthOutcome.connError e) = Except.ok none := rfl

/-- C8: Table provisioning idempotence — provisioning the same named
collection twice yields success both times: whatever the initial sink
state, both PUTs return a status the source classifies as success, and
the second call's status is the conflict status 409 (already exists),
which counts as success, not as an error. -/
theorem C8_table_provisioning_idempotent (s : Sink) (p : String) :
    statusMeansSuccess (putTable s p).1 = true
    ∧ (putTable (putTable s p).2 p).1 = 409
    ∧ statusMeansSuccess (putTable (putTable s p).2 p).1 = true := by
  by_cases hp : p ∈ s.tables
  · simp [putTable, hp, statusMeansSuccess]
  · simp [putTable, hp, statusMeansSuccess]

/-- C9: Implicit — crash on missing token: when authentication swallowed
a connection error and left the token `None`, the session aborts at
header construction with an uncaught `TypeError`, and the trace of
gateway requests is empty: no request is ever sent with an undefined
token. -/
theorem C9_crash_on_missing_token (e : String) (s : Sink) (w : Web3)
    (post : InsertCall → Option String) :
    runScript (AuthOutcome.connError e) s w post
      = Except.error ("TypeError: NoneType object is not subscriptable", []) := rfl

/-- C5: Range Driver coverage and order — for every start and end height
(under an always-reachable ledger), the driver produces, for each
height of the half-open interval `[start, end)` in increasing order,
one extractor invocation followed by that height's loader events; the
end height itself is never processed.  Each height of the interval is
extracted exactly once and no height outside it is ever extracted. -/
theorem C5_range_driver_coverage (w : Web3) (post : InsertCall → Option String)
    (hdrs : Headers) (txsOf : Nat → List Doc)
    (hw : ∀ b, getAllTransactions w b = .ok (txsOf b))
    (blockstart blockend : Nat) (tbl : String) :
    getTransactionsAndInsertToDB w post hdrs blockstart blockend tbl
      = .ok ((List.range' blockstart (blockend - blockstart)).flatMap
          (fun b => Event.extract b
            :: insertLoop post (txsUrlBase ++ tbl) hdrs (txsOf b)))
    ∧ extractsOf (driverTrace
          (getTransactionsAndInsertToDB w post hdrs blockstart blockend tbl))
        = List.range' blockstart (blockend - blockstart)
    ∧ (∀ b : Nat, b ∈ extractsOf (driverTrace
          (getTransactionsAndInsertToDB w post hdrs blockstart blockend tbl))
        ↔ blockstart ≤ b ∧ b < blockend)
    ∧ (∀ b : Nat, blockstart ≤ b → b < blockend →
        (extractsOf (driverTrace
          (getTransactionsAndInsertToDB w post hdrs blockstart blockend tbl))).count b = 1)
    ∧ List.Chain' (· < ·) (extractsOf (driverTrace
          (getTransactionsAndInsertToDB w post hdrs blockstart blockend tbl)))
    ∧ blockend ∉ extractsOf (driverTrace
          (getTransactionsAndInsertToDB w post hdrs blockstart blockend tbl)) := by
  have hrun := runBlocks_ok w post (txsUrlBase ++ tbl) hdrs txsOf
    (List.range' blockstart (blockend - blockstart)) [] (fun b _ => hw b)
  have hmain : getTransactionsAndInsertToDB w post hdrs blockstart blockend tbl
      = .ok ((List.range' blockstart (blockend - blockstart)).flatMap
          (fun b => Event.extract b
            :: insertLoop post (txsUrlBase ++ tbl) hdrs (txsOf b))) := by
    rw [getTransactionsAndInsertToDB, hrun, List.nil_append]
  have hex : extractsOf (driverTrace
      (getTransactionsAndInsertToDB w post hdrs blockstart blockend tbl))
      = List.range' blockstart (blockend - blockstart) := by
    rw [hmain]
    exact extractsOf_flat post (txsUrlBase ++ tbl) hdrs txsOf _
  refine ⟨hmain, hex, ?_, ?_, ?_, ?_⟩
  · intro b
    rw [hex, List.mem_range'_1]
    omega
  · intro b h1 h2
    rw [hex]
    exact List.count_eq_one_of_mem (List.nodup_range' _ _)
      (by rw [List.mem_range'_1]; omega)
  · rw [hex]
    exact (List.pairwise_lt_range' _ _).chain'
  · intro hmem
    rw [hex, List.mem_range'_1] at hmem
    omega

/-- Witness for C5: driving the empty ledger over `[2, 4)` extracts
exactly blocks 2 and 3, in order, and issues no inserts. -/
theorem C5_range_driver_coverage_witness :
    getTransactionsAndInsertToDB emptyLedger (fun _ => none) demoHdrs 2 4 "t"
      = .ok [Event.extract 2, Event.extract 3]
    ∧ (3 ∈ extractsOf (driverTrace
        (getTransactionsAndInsertToDB emptyLedger (fun _ => none) demoHdrs 2 4 "t"))
        ↔ 2 ≤ 3 ∧ 3 < 4) := by
  have h := C5_range_driver_coverage emptyLedger (fun _ => none) demoHdrs
    (fun _ => []) (fun b => rfl) 2 4 "t"
  exact ⟨by rw [h.1]; rfl, h.2.2.1 3⟩

/-- C3: End-to-end count — for a ledger source whose blocks 100, 101,
102 contain 2, 0 and 3 transactions, running the Range Driver over
`[100, 103)` finishes and issues exactly 5 insert calls to the
configured collection URL, in source order, each keyed by the
corresponding transaction's hash. -/
theorem C3_end_to_end (w : Web3) (post : InsertCall → Option String) (hdrs : Headers)
    (txs100 txs101 txs102 : List Doc)
    (h100 : getAllTransactions w 100 = .ok txs100)
    (h101 : getAllTransactions w 101 = .ok txs101)
    (h102 : getAllTransactions w 102 = .ok txs102)
    (hl100 : txs100.length = 2) (hl101 : txs101.length = 0)
    (hl102 : txs102.length = 3)
    (hhash : ∀ t ∈ txs100 ++ txs101 ++ txs102, (prepareTx t).isSome = true)
    (hpost : ∀ c, post c = none) :
    (getTransactionsAndInsertToDB w post hdrs 100 103 "all_transactions_table").isOk = true
    ∧ insertsOf (driverTrace
        (getTransactionsAndInsertToDB w post hdrs 100 103 "all_transactions_table"))
        = (txs100 ++ txs101 ++ txs102).map
            (fun t => mkCall (txsUrlBase ++ "all_transactions_table") hdrs
              ((prepareTx t).getD t))
    ∧ (insertsOf (driverTrace
        (getTransactionsAndInsertToDB w post hdrs 100 103 "all_transactions_table"))).length
        = 5
    ∧ ∀ t ∈ txs100 ++ txs101 ++ txs102,
        getField ((prepareTx t).getD t) "_id" = getField t "hash" := by
  have hkey : ∀ t ∈ txs100 ++ txs101 ++ txs102,
      getField ((prepareTx t).getD t) "_id" = getField t "hash" := by
    intro t ht
    obtain ⟨d, hd⟩ := Option.isSome_iff_exists.mp (hhash t ht)
    obtain ⟨h, hh, hset⟩ := Option.map_eq_some'.mp hd
    rw [hd, Option.getD_some, ← hset, getField_setField_same, hh]
  have hIL100 : insertLoop post (txsUrlBase ++ "all_transactions_table") hdrs txs100
      = txs100.map (fun t => Event.insert
          (mkCall (txsUrlBase ++ "all_transactions_table") hdrs ((prepareTx t).getD t))) :=
    insertLoop_all_ok post _ hdrs txs100
      (fun t ht => hhash t (by simp [List.mem_append, ht])) hpost
  have hIL101 : insertLoop post (txsUrlBase ++ "all_transactions_table") hdrs txs101
      = txs101.map (fun t => Event.insert
          (mkCall (txsUrlBase ++ "all_transactions_table") hdrs ((prepareTx t).getD t))) :=
    insertLoop_all_ok post _ hdrs txs101
      (fun t ht => hhash t (by simp [List.mem_append, ht])) hpost
  have hIL102 : insertLoop post (txsUrlBase ++ "all_transactions_table") hdrs txs102
      = txs102.map (fun t => Event.insert
          (mkCall (txsUrlBase ++ "all_transactions_table") hdrs ((prepareTx t).getD t))) :=
    insertLoop_all_ok post _ hdrs txs102
      (fun t ht => hhash t (by simp [List.mem_append, ht])) hpost
  have hbs : ∀ b ∈ List.range' 100 (103 - 100), getAllTransactions w b
      = .ok (if b = 100 then txs100 else if b = 101 then txs101 else txs102) := by
    intro b hb
    have : b = 100 ∨ b = 101 ∨ b = 102 := by
      rw [List.mem_range'_1] at hb
      omega
    rcases this with rfl | rfl | rfl <;> simp [h100, h101, h102]
  have hrun := runBlocks_ok w post (txsUrlBase ++ "all_transactions_table") hdrs
    (fun b => if b = 100 then txs100 else if b = 101 then txs101 else txs102)
    (List.range' 100 (103 - 100)) [] hbs
  have hmain : getTransactionsAndInsertToDB w post hdrs 100 103 "all_transactions_table"
      = .ok ((List.range' 100 (103 - 100)).flatMap
          (fun b => Event.extract b
            :: insertLoop post (txsUrlBase ++ "all_transactions_table") hdrs
                (if b = 100 then txs100 else if b = 101 then txs101 else txs102))) := by
    rw [getTransactionsAndInsertToDB, hrun, List.nil_append]
  have hr : List.range' 100 (103 - 100) = [100, 101, 102] := rfl
  have hins : insertsOf (driverTrace
      (getTransactionsAndInsertToDB w post hdrs 100 103 "all_transactions_table"))
      = (txs100 ++ txs101 ++ txs102).map
          (fun t => mkCall (txsUrlBase ++ "all_transactions_table") hdrs
            ((prepareTx t).getD t)) := by
    rw [hmain]
    show insertsOf
        ((Event.extract 100
            :: insertLoop post (txsUrlBase ++ "all_transactions_table") hdrs txs100)
          ++ ((Event.extract 101
            :: insertLoop post (txsUrlBase ++ "all_transactions_table") hdrs txs101)
          ++ ((Event.extract 102
            :: insertLoop post (txsUrlBase ++ "all_transactions_table") hdrs txs102)
          ++ [])))
      = (txs100 ++ txs101 ++ txs102).map _
    rw [hIL100, hIL101, hIL102]
    simp [insertsOf_append, insertsOf, insertsOf_map_insert, List.map_append]
  refine ⟨by rw [hmain]; rfl, hins, ?_, hkey⟩
  rw [hins]
  simp [hl100, hl101, hl102]

/-- Witness for C3 on the sample ledger: the run finishes and issues
exactly 5 insert calls. -/
theorem C3_end_to_end_witness :
    (getTransactionsAndInsertToDB demoLedger (fun _ => none) demoHdrs 100 103
        "all_transactions_table").isOk = true
    ∧ (insertsOf (driverTrace
        (getTransactionsAndInsertToDB demoLedger (fun _ => none) demoHdrs 100 103
          "all_transactions_table"))).length = 5 := by
  have h := C3_end_to_end demoLedger (fun _ => none) demoHdrs
    [tx1, tx2] [] [tx3, tx4, tx5] rfl rfl rfl rfl rfl rfl
    (by
      intro t ht
      simp only [List.append_nil, List.nil_append, List.mem_append, List.mem_cons,
        List.not_mem_nil, or_false] at ht
      rcases ht with (rfl | rfl) | rfl | rfl | rfl <;> rfl)
    (fun _ => rfl)
  exact ⟨h.1, h.2.2.1⟩

/-- C10: Implicit — extraction failure aborts the run: an exception
raised while extracting block `b`'s transactions is outside the
Loader's handler, so the driver ends with that error; blocks before `b`
in the range were processed, `b`'s extraction was the last invocation,
and no height after `b` is ever processed. -/
theorem C10_extraction_failure_aborts (w : Web3) (post : InsertCall → Option String)
    (hdrs : Headers) (txsOf : Nat → List Doc) (blockstart b blockend : Nat)
    (tbl e : String)
    (hsb : blockstart ≤ b) (hbe : b < blockend)
    (hpre : ∀ b', blockstart ≤ b' → b' < b → getAllTransactions w b' = .ok (txsOf b'))
    (hb : getAllTransactions w b = .error e) :
    errOf (getTransactionsAndInsertToDB w post hdrs blockstart blockend tbl) = some e
    ∧ extractsOf (driverTrace
        (getTransactionsAndInsertToDB w post hdrs blockstart blockend tbl))
        = List.range' blockstart (b - blockstart) ++ [b]
    ∧ ∀ b', b < b' →
        b' ∉ extractsOf (driverTrace
          (getTransactionsAndInsertToDB w post hdrs blockstart blockend tbl)) := by
  have hsplit : List.range' blockstart (blockend - blockstart)
      = List.range' blockstart (b - blockstart)
        ++ b :: List.range' (b + 1) (blockend - (b + 1)) := by
    have h1 : blockend - blockstart = ((blockend - (b + 1)) + 1) + (b - blockstart) := by
      omega
    have h2 : blockstart + (b - blockstart) = b := by omega
    rw [h1, ← List.range'_append_1, h2, List.range'_succ]
  have hpre' : ∀ b' ∈ List.range' blockstart (b - blockstart),
      getAllTransactions w b' = .ok (txsOf b') := by
    intro b' hb'
    rw [List.mem_range'_1] at hb'
    exact hpre b' hb'.1 (by omega)
  have happ := runBlocks_append_ok w post (txsUrlBase ++ tbl) hdrs txsOf
    (List.range' blockstart (b - blockstart))
    (b :: List.range' (b + 1) (blockend - (b + 1))) [] hpre'
  have hmain : getTransactionsAndInsertToDB w post hdrs blockstart blockend tbl
      = .error (e, ([] ++ (List.range' blockstart (b - blockstart)).flatMap
          (fun x => Event.extract x :: insertLoop post (txsUrlBase ++ tbl) hdrs (txsOf x)))
          ++ [Event.extract b]) := by
    rw [getTransactionsAndInsertToDB, hsplit, happ]
    simp only [runBlocks, hb]
  have hex : extractsOf (driverTrace
      (getTransactionsAndInsertToDB w post hdrs blockstart blockend tbl))
      = List.range' blockstart (b - blockstart) ++ [b] := by
    rw [hmain]
    show extractsOf (([] ++ _) ++ [Event.extract b]) = _
    rw [extractsOf_append, List.nil_append, extractsOf_flat]
    rfl
  refine ⟨by rw [hmain]; rfl, hex, ?_⟩
  intro b' hb' hmem
  rw [hex] at hmem
  rcases List.mem_append.mp hmem with hm | hm
  · rw [List.mem_range'_1] at hm
    omega
  · simp only [List.mem_singleton] at hm
    omega

/-- Witness for C10 on the faulty ledger: with extraction failing at
block 4 of the range `[3, 6)`, the run aborts with that error, blocks 3
and 4 are the only extractor invocations, and block 5 is never
processed. -/
theorem C10_extraction_failure_aborts_witness :
    errOf (getTransactionsAndInsertToDB faultyLedger (fun _ => none) demoHdrs 3 6 "t")
      = some "timeout"
    ∧ extractsOf (driverTrace
        (getTransactionsAndInsertToDB faultyLedger (fun _ => none) demoHdrs 3 6 "t"))
        = [3, 4]
    ∧ 5 ∉ extractsOf (driverTrace
        (getTransactionsAndInsertToDB faultyLedger (fun _ => none) demoHdrs 3 6 "t")) := by
  have h := C10_extraction_failure_aborts faultyLedger (fun _ => none) demoHdrs
    (fun _ => []) 3 4 6 "t" "timeout" (by omega) (by omega)
    (by
      intro b' h1 h2
      have hb3 : b' = 3 := by omega
      subst hb3
      rfl)
    rfl
  exact ⟨h.1, h.2.1.trans rfl, h.2.2 5 (by omega)⟩

/-- Counterexample to C1 as stated: with five transactions in one block
and the insert of the third raising, the loader attempts exactly the
first three posts and then leaves the loop — the inserts of
transactions 4 and 5 are NOT attempted (3 attempts, not 5), though the
failure is indeed reported once. -/
theorem C1_counterexample :
    insertLoop demoPost demoUrl demoHdrs [tx1, tx2, tx3, tx4, tx5]
      = [Event.insert (mkCall demoUrl demoHdrs (setField tx1 "_id" (Val.vstr "h1"))),
         Event.insert (mkCall demoUrl demoHdrs (setField tx2 "_id" (Val.vstr "h2"))),
         Event.insert (mkCall demoUrl demoHdrs (setField tx3 "_id" (Val.vstr "h3"))),
         Event.report "ConnectionError"]
    ∧ (insertsOf (insertLoop demoPost demoUrl demoHdrs [tx1, tx2, tx3, tx4, tx5])).length
        ≠ 5 := by
  refine ⟨rfl, ?_⟩
  intro hcontra
  have h3 : (insertsOf
      (insertLoop demoPost demoUrl demoHdrs [tx1, tx2, tx3, tx4, tx5])).length = 3 := rfl
  omega

/-- C1 (amended): per-BLOCK failure isolation — when the insert of one
record raises, every earlier record of that block was attempted, the
failing record's post was attempted, the records after it in the SAME
block are skipped (not attempted), the failure is reported exactly
once; and the outer loop still proceeds to every subsequent block
(insert failures never abort the block range). -/
theorem C1_per_block_failure_isolation (post : InsertCall → Option String)
    (url : String) (hdrs : Headers) (pre : List Doc) (t : Doc) (suf : List Doc)
    (dt : Doc) (e : String)
    (hpre : ∀ d ∈ pre, (prepareTx d).isSome = true
      ∧ post (mkCall url hdrs ((prepareTx d).getD d)) = none)
    (hdt : prepareTx t = some dt)
    (he : post (mkCall url hdrs dt) = some e) :
    insertsOf (insertLoop post url hdrs (pre ++ t :: suf))
      = pre.map (fun d => mkCall url hdrs ((prepareTx d).getD d)) ++ [mkCall url hdrs dt]
    ∧ reportsOf (insertLoop post url hdrs (pre ++ t :: suf)) = [e]
    ∧ ∀ (w : Web3) (txsOf : Nat → List Doc) (bs : List Nat) (evs : List Event),
        (∀ b ∈ bs, getAllTransactions w b = .ok (txsOf b)) →
        extractsOf (driverTrace (runBlocks w post url hdrs bs evs))
          = extractsOf evs ++ bs := by
  have hloop := insertLoop_fail post url hdrs pre t suf dt e hpre hdt he
  refine ⟨?_, ?_, ?_⟩
  · rw [hloop, insertsOf_append, insertsOf_map_insert]
    rfl
  · rw [hloop, reportsOf_append, reportsOf_map_insert, List.nil_append]
    rfl
  · intro w txsOf bs evs hbs
    rw [runBlocks_ok w post url hdrs txsOf bs evs hbs]
    show extractsOf (evs ++ _) = _
    rw [extractsOf_append, extractsOf_flat]

/-- Witness for the amended C1: five records with the third's insert
raising — the first three posts are attempted, one report is printed,
and a later run over blocks 7 and 8 still processes both. -/
theorem C1_per_block_failure_isolation_witness :
    insertsOf (insertLoop demoPost demoUrl demoHdrs ([tx1, tx2] ++ tx3 :: [tx4, tx5]))
      = [tx1, tx2].map (fun d => mkCall demoUrl demoHdrs ((prepareTx d).getD d))
        ++ [mkCall demoUrl demoHdrs (setField tx3 "_id" (Val.vstr "h3"))]
    ∧ reportsOf (insertLoop demoPost demoUrl demoHdrs ([tx1, tx2] ++ tx3 :: [tx4, tx5]))
        = ["ConnectionError"]
    ∧ extractsOf (driverTrace (runBlocks emptyLedger demoPost demoUrl demoHdrs [7, 8] []))
        = extractsOf [] ++ [7, 8] := by
  have h := C1_per_block_failure_isolation demoPost demoUrl demoHdrs
    [tx1, tx2] tx3 [tx4, tx5] (setField tx3 "_id" (Val.vstr "h3")) "ConnectionError"
    (by
      intro d hd
      simp only [List.mem_cons, List.not_mem_nil, or_false] at hd
      rcases hd with rfl | rfl <;> exact ⟨rfl, rfl⟩)
    rfl rfl
  exact ⟨h.1, h.2.1, h.2.2 emptyLedger (fun _ => []) [7, 8] [] (fun _ _ => rfl)⟩

/-- Every gateway request the driver makes carries exactly the headers it
was given. -/
theorem eventHeaders_driver (w : Web3) (post : InsertCall → Option String)
    (hdrs : Headers) (bstart bend : Nat) (tbl : String) :
    ∀ ev ∈ driverTrace (getTransactionsAndInsertToDB w post hdrs bstart bend tbl),
      ∀ hd, eventHeaders ev = some hd → hd = hdrs := by
  intro ev hev hd hhd
  exact eventHeaders_runBlocks w post (txsUrlBase ++ tbl) hdrs
    (List.range' bstart (bend - bstart)) []
    (fun ev' hev' => absurd hev' (List.not_mem_nil ev')) ev hev hd hhd

/-- C7: Token header invariant — after a successful authentication
exactly one token is obtained (the parsed response), and every
subsequent gateway request of the session (the table-create PUT and
every transaction insert) carries a header containing
`Authorization: Bearer <token>` with that same token and
`content-type: application/json`. -/
theorem C7_token_header_invariant (j : Doc) (t : String)
    (ht : getField j "token" = some (Val.vstr t))
    (s : Sink) (w : Web3) (post : InsertCall → Option String) :
    runAuth (AuthOutcome.success j) = Except.ok (some j)
    ∧ mkHeaders (some j)
        = .ok [("content-type", "application/json"), ("Authorization", "Bearer " ++ t)]
    ∧ ∀ ev ∈ scriptTrace (runScript (AuthOutcome.success j) s w post),
        ∀ hd, eventHeaders ev = some hd →
          ("Authorization", "Bearer " ++ t) ∈ hd
          ∧ ("content-type", "application/json") ∈ hd := by
  have hmk : mkHeaders (some j)
      = .ok [("content-type", "application/json"), ("Authorization", "Bearer " ++ t)] := by
    simp [mkHeaders, ht]
  refine ⟨rfl, hmk, ?_⟩
  intro ev hev hd hhd
  suffices hs : hd = [("content-type", "application/json"),
      ("Authorization", "Bearer " ++ t)] by
    subst hs
    exact ⟨by simp, by simp⟩
  have h0 : runScript (AuthOutcome.success j) s w post
      = (match mkHeaders (some j) with
         | .error er => Except.error (er, ([] : List Event))
         | .ok headers =>
           match getTransactionsAndInsertToDB w post headers (w.latestNumber - 100)
               w.latestNumber "all_transactions_table" with
           | .error (er, evs₂) =>
             Except.error (er,
               [Event.tablePut transaction_put_url headers
                 (putTable s transaction_put_url).1] ++ evs₂)
           | .ok evs₂ =>
             Except.ok
               ([Event.tablePut transaction_put_url headers
                 (putTable s transaction_put_url).1] ++ evs₂,
                (putTable s transaction_put_url).2)) := rfl
  rw [hmk] at h0
  cases hdrv : getTransactionsAndInsertToDB w post
      [("content-type", "application/json"), ("Authorization", "Bearer " ++ t)]
      (w.latestNumber - 100) w.latestNumber "all_transactions_table" with
  | error pr =>
    obtain ⟨e, evs⟩ := pr
    have htr : runScript (AuthOutcome.success j) s w post
        = .error (e, [Event.tablePut transaction_put_url
            [("content-type", "application/json"), ("Authorization", "Bearer " ++ t)]
            (putTable s transaction_put_url).1] ++ evs) := by
      rw [h0]
      show (match getTransactionsAndInsertToDB w post
            [("content-type", "application/json"), ("Authorization", "Bearer " ++ t)]
            (w.latestNumber - 100) w.latestNumber "all_transactions_table" with
          | .error (er, evs₂) =>
            Except.error (er,
              [Event.tablePut transaction_put_url
                [("content-type", "application/json"), ("Authorization", "Bearer " ++ t)]
                (putTable s transaction_put_url).1] ++ evs₂)
          | .ok evs₂ =>
            Except.ok
              ([Event.tablePut transaction_put_url
                [("content-type", "application/json"), ("Authorization", "Bearer " ++ t)]
                (putTable s transaction_put_url).1] ++ evs₂,
               (putTable s transaction_put_url).2))
        = _
      rw [hdrv]
    rw [htr] at hev
    simp only [scriptTrace, List.singleton_append, List.mem_cons] at hev
    rcases hev with rfl | hev
    · simp only [eventHeaders, Option.some.injEq] at hhd
      exact hhd.symm
    · refine eventHeaders_driver w post _ (w.latestNumber - 100) w.latestNumber
        "all_transactions_table" ev ?_ hd hhd
      rw [hdrv]
      exact hev
  | ok evs =>
    have htr : runScript (AuthOutcome.success j) s w post
        = .ok ([Event.tablePut transaction_put_url
            [("content-type", "application/json"), ("Authorization", "Bearer " ++ t)]
            (putTable s transaction_put_url).1] ++ evs,
            (putTable s transaction_put_url).2) := by
      rw [h0]
      show (match getTransactionsAndInsertToDB w post
            [("content-type", "application/json"), ("Authorization", "Bearer " ++ t)]
            (w.latestNumber - 100) w.latestNumber "all_transactions_table" with
          | .error (er, evs₂) =>
            Except.error (er,
              [Event.tablePut transaction_put_url
                [("content-type", "application/json"), ("Authorization", "Bearer " ++ t)]
                (putTable s transaction_put_url).1] ++ evs₂)
          | .ok evs₂ =>
            Except.ok
              ([Event.tablePut transaction_put_url
                [("content-type", "application/json"), ("Authorization", "Bearer " ++ t)]
                (putTable s transaction_put_url).1] ++ evs₂,
               (putTable s transaction_put_url).2))
        = _
      rw [hdrv]
    rw [htr] at hev
    simp only [scriptTrace, List.singleton_append, List.mem_cons] at hev
    rcases hev with rfl | hev
    · simp only [eventHeaders, Option.some.injEq] at hhd
      exact hhd.symm
    · refine eventHeaders_driver w post _ (w.latestNumber - 100) w.latestNumber
        "all_transactions_table" ev ?_ hd hhd
      rw [hdrv]
      exact hev

/-- Witness for C7 with token `tok`: authentication yields exactly that
token, the built header pair is as specified, and the table PUT event
of the concrete session run carries the bearer header. -/
theorem C7_token_header_invariant_witness :
    runAuth (AuthOutcome.success [("token", Val.vstr "tok")])
      = Except.ok (some [("token", Val.vstr "tok")])
    ∧ mkHeaders (some [("token", Val.vstr "tok")])
        = .ok [("content-type", "application/json"),
               ("Authorization", "Bearer " ++ "tok")]
    ∧ ("Authorization", "Bearer " ++ "tok")
        ∈ [("content-type", "application/json"),
           ("Authorization", "Bearer " ++ "tok")] := by
  have h := C7_token_header_invariant [("token", Val.vstr "tok")] "tok" rfl
    ⟨[]⟩ emptyLedger (fun _ => none)
  refine ⟨h.1, h.2.1, ?_⟩
  have hmem : Event.tablePut transaction_put_url
      [("content-type", "application/json"), ("Authorization", "Bearer " ++ "tok")] 201
      ∈ scriptTrace (runScript (AuthOutcome.success [("token", Val.vstr "tok")]) ⟨[]⟩
          emptyLedger (fun _ => none)) := by
    show _ ∈ [Event.tablePut transaction_put_url
      [("content-type", "application/json"), ("Authorization", "Bearer " ++ "tok")] 201]
    exact List.mem_singleton.mpr rfl
  exact (h.2.2 _ hmem _ rfl).1
